import Mathlib

/-!
Shallow embedding of the report-tree flattening and aging-bucket logic of the
Streamlit dashboard repository (src/bs2.py, src/bs5.py, src/ar.py,
src/pyth10.py, src/pyth11.py, src/initial/pyth5.py), together with theorems
settling the specification claims about that logic.

Conventions of the embedding:
* JSON scalar values that may appear in a `total` field are modelled by `JVal`
  (number, string, or null); an absent key is `Option.none` around it.
* Python `float(x)` is a fallible conversion: it is modelled as an
  `Option Rat`, where `none` stands for a raised `ValueError`/`TypeError`.
* Machine floats are modelled by rationals; the IEEE special values that can
  come out of a pandas division are modelled explicitly by `FVal`
  (finite / +inf / -inf / NaN).
* Dates are modelled as integer day numbers.  A raw (string) date, a parsed
  (`datetime`) date and a missing date (`NaT`) are distinguished by `DateVal`,
  which lets the in-place parsing performed by `compute_aging` be observed.
* Functions that can raise return `Option`; `none` means the Python function
  raised and produced no output at all.
-/

/-- A JSON scalar value as it may appear in a `total` field of a report node. -/
inductive JVal : Type where
  | num (q : Rat)
  | str (s : String)
  | null
deriving DecidableEq, Repr

/-- Python truthiness of a `JVal`: `0`, `""` and `None` are falsy. -/
def JVal.truthy : JVal → Bool
  | .num q => q != 0
  | .str s => s != ""
  | .null => false

/-- Numeric value of a list of decimal digit characters (most significant first). -/
def digitsVal (cs : List Char) : Nat :=
  cs.foldl (fun a c => a * 10 + (c.toNat - 48)) 0

/-- Split a character list at every `.`, keeping empty pieces. -/
def splitDot : List Char → List (List Char)
  | [] => [[]]
  | c :: cs =>
    let r := splitDot cs
    if c = '.' then [] :: r
    else
      match r with
      | [] => [[c]]
      | p :: ps => (c :: p) :: ps

/-- Strip leading and trailing whitespace characters. -/
def stripWs (cs : List Char) : List Char :=
  ((cs.dropWhile Char.isWhitespace).reverse.dropWhile Char.isWhitespace).reverse

/-- Models Python `float(s)` on a string: accepts an optional sign followed by a
decimal literal (digits, optionally with one decimal point somewhere; at least
one digit overall), after stripping surrounding whitespace, and returns `none`
(a raised `ValueError`) otherwise.  Exponent/`inf`/`nan` forms do not occur in
the data and are not modelled. -/
def pyFloatStr (s : String) : Option Rat :=
  let t := stripWs s.toList
  let (sgn, body) : Rat × List Char :=
    match t with
    | '-' :: r => (-1, r)
    | '+' :: r => (1, r)
    | r => (1, r)
  match splitDot body with
  | [ip] =>
      if ip ≠ [] ∧ ip.all Char.isDigit then some (sgn * digitsVal ip) else none
  | [ip, fp] =>
      if (ip ++ fp) ≠ [] ∧ ip.all Char.isDigit ∧ fp.all Char.isDigit then
        some (sgn * ((digitsVal ip : Rat) + (digitsVal fp : Rat) / (10 ^ fp.length)))
      else none
  | _ => none

/-- Models `float(node.get("total", 0))` from src/bs2.py line 80: an absent key
defaults to `0`; a number converts to itself; a string is parsed (raising on a
non-numeric string); `null` raises a `TypeError` (`float(None)`). -/
def pyFloatBs2 : Option JVal → Option Rat
  | none => some 0
  | some (.num q) => some q
  | some (.str s) => pyFloatStr s
  | some .null => none

/-- Models `float(node.get("total", 0) or 0)` from src/bs5.py line 68: an
absent key or a falsy value (`0`, `""`, `null`) becomes `0.0`; any other value
goes through `float`, which raises on a non-numeric string. -/
def pyFloatBs5 (v : Option JVal) : Option Rat :=
  match v with
  | none => some 0
  | some j => if j.truthy then pyFloatBs2 (some j) else some 0

/-- A node of the balance-sheet report tree: `name`, `total_label` and `total`
fields (each possibly absent) and the `account_transactions` children list
(absent or null modelled as the empty list). -/
inductive Node : Type where
  | mk (name : Option String) (total_label : Option String)
       (total : Option JVal) (children : List Node)

/-- The `name` field of a node. -/
def Node.name : Node → Option String
  | .mk n _ _ _ => n

/-- The `total_label` field of a node. -/
def Node.total_label : Node → Option String
  | .mk _ l _ _ => l

/-- The `total` field of a node. -/
def Node.total : Node → Option JVal
  | .mk _ _ t _ => t

/-- The `account_transactions` children of a node. -/
def Node.children : Node → List Node
  | .mk _ _ _ c => c

/-- Python truthiness of an optional string (`None` and `""` are falsy). -/
def truthyStr : Option String → Bool
  | none => false
  | some s => s != ""

/-- Models `name = node.get("name") or node.get("total_label")` followed by the
`if name:` truthiness test: the result is `some` exactly when a row is emitted,
and carries the emitted account name. -/
def resolveName (name total_label : Option String) : Option String :=
  if truthyStr name then name
  else if truthyStr total_label then total_label
  else none

/-- An output row of `fetch_balance_sheet_4cols` in src/bs2.py: the account name
and exactly one of the three total columns filled in. -/
structure Row4 : Type where
  account : String
  firstTotal : Option Rat
  subTotal : Option Rat
  grandTotal : Option Rat
deriving DecidableEq, Repr

mutual

/-- Models `recurse(node, depth)` of src/bs2.py lines 78-99.  The `total` field
is converted by `float` before the name test (so a malformed total raises even
for an unnamed node); a named node emits one row whose filled column is chosen
by `depth == 0`, then `children`, in that order; children are visited in order
at `depth + 1`.  `none` models a raised exception (the whole call produces no
DataFrame). -/
def recurse : Node → Nat → Option (List Row4)
  | .mk name tlabel total children, depth =>
    match pyFloatBs2 total with
    | none => none
    | some t =>
      let rows : List Row4 :=
        match resolveName name tlabel with
        | some nm =>
            if depth = 0 then [⟨nm, none, none, some t⟩]
            else if !children.isEmpty then [⟨nm, none, some t, none⟩]
            else [⟨nm, some t, none, none⟩]
        | none => []
      match recurseList children (depth + 1) with
      | none => none
      | some rest => some (rows ++ rest)

/-- Models the `for child in children: recurse(child, depth + 1)` loop of
src/bs2.py lines 98-99 (and, at depth 0, the `for section in sheet` loop of
lines 102-103). -/
def recurseList : List Node → Nat → Option (List Row4)
  | [], _ => some []
  | n :: ns, depth =>
    match recurse n depth with
    | none => none
    | some a =>
      match recurseList ns depth with
      | none => none
      | some b => some (a ++ b)

end

/-- An output row of `flatten_bs` in src/bs5.py: account name, depth, total and
the `IsGroup` flag. -/
structure Row5 : Type where
  account : String
  depth : Nat
  total : Rat
  isGroup : Bool
deriving DecidableEq, Repr

mutual

/-- Models `rec(node, depth)` of src/bs5.py lines 66-79: `total` is converted
by `float(... or 0)` (raising on a non-numeric non-empty string), a named node
emits one row recording its depth and whether it has children, and children
are visited in order at `depth + 1`. -/
def flattenRec : Node → Nat → Option (List Row5)
  | .mk name tlabel total children, depth =>
    match pyFloatBs5 total with
    | none => none
    | some t =>
      let rows : List Row5 :=
        match resolveName name tlabel with
        | some nm => [⟨nm, depth, t, !children.isEmpty⟩]
        | none => []
      match flattenRecList children (depth + 1) with
      | none => none
      | some rest => some (rows ++ rest)

/-- Models the `for ch in children: rec(ch, depth + 1)` loop of src/bs5.py
lines 78-79. -/
def flattenRecList : List Node → Nat → Option (List Row5)
  | [], _ => some []
  | n :: ns, depth =>
    match flattenRec n depth with
    | none => none
    | some a =>
      match flattenRecList ns depth with
      | none => none
      | some b => some (a ++ b)

end

/-- Models `flatten_bs` of src/bs5.py lines 62-84: every top-level section is
walked at depth 0 and the rows are concatenated in order. -/
def flatten_bs (sheet : List Node) : Option (List Row5) :=
  flattenRecList sheet 0

/-- Models the inner `for child in sec["account_transactions"]` search of
src/bs2.py lines 66-70: find the first child whose `name` field equals
"Other Current Assets", remove it from the list, and return the remaining list
together with the extracted child (`none` when no such child exists). -/
def findRemoveOCA : List Node → List Node × Option Node
  | [] => ([], none)
  | c :: cs =>
    if c.name = some "Other Current Assets" then (cs, some c)
    else
      let (cs', r) := findRemoveOCA cs
      (c :: cs', r)

/-- Models the outer loop of src/bs2.py lines 64-71: in the first top-level
section whose `name` field is "Assets", extract the first child named
"Other Current Assets" (the loop breaks after the first "Assets" section,
whether or not the child was found). -/
def removeOCA : List Node → List Node × Option Node
  | [] => ([], none)
  | sec :: rest =>
    if sec.name = some "Assets" then
      match sec with
      | .mk n l t cs =>
        let (cs', r) := findRemoveOCA cs
        (Node.mk n l t cs' :: rest, r)
    else
      let (rest', r) := removeOCA rest
      (sec :: rest', r)

/-- Models `sheet.insert(idx + 1, other_current)` of src/bs2.py lines 73-74,
where `idx` is the index of the first section named "Assets": the node is
inserted immediately after that section.  (When no "Assets" section exists the
Python `next(...)` would raise; that branch is unreachable because the node to
insert was extracted from inside an "Assets" section.) -/
def insertAfterAssets : List Node → Node → List Node
  | [], n => [n]
  | sec :: rest, n =>
    if sec.name = some "Assets" then sec :: n :: rest
    else sec :: insertAfterAssets rest n

/-- Models the restructuring step of `fetch_balance_sheet_4cols` in src/bs2.py
lines 61-74: extract "Other Current Assets" from under the "Assets" section and
insert it as a new top-level section right after "Assets"; if it is not found
the sheet is left as it was. -/
def restructureSheet (sheet : List Node) : List Node :=
  let (sheet', r) := removeOCA sheet
  match r with
  | some oca => insertAfterAssets sheet' oca
  | none => sheet'

/-- Models `fetch_balance_sheet_4cols` of src/bs2.py lines 44-105 from the point
where the JSON sheet is in hand: restructure the sheet, then walk every
top-level section at depth 0 with `recurse`. -/
def fetch_balance_sheet_4cols (sheet : List Node) : Option (List Row4) :=
  recurseList (restructureSheet sheet) 0

/-- A due-date cell of the documents DataFrame.  `raw` is the date string the
API returned (already identifying a calendar day, represented by its day
number), `parsed` is the same day after `pd.to_datetime`, and `missing` is an
absent due date (`NaN`, which `pd.to_datetime` turns into `NaT`). -/
inductive DateVal : Type where
  | raw (d : Int)
  | parsed (d : Int)
  | missing
deriving DecidableEq, Repr

/-- Models `pd.to_datetime` on one due-date cell (src/ar.py line 115). -/
def toDatetime : DateVal → DateVal
  | .raw d => .parsed d
  | .parsed d => .parsed d
  | .missing => .missing

/-- Models the boolean mask `df["due_date"] <= as_of` (src/ar.py line 118) on
one cell; a `NaT` compares as `False`.  The `raw` branch is unreachable in the
pipeline because `pd.to_datetime` runs first. -/
def dateLe (v : DateVal) (asOf : Int) : Bool :=
  match v with
  | .parsed d => d ≤ asOf
  | .raw _ => false
  | .missing => false

/-- The five aging buckets of src/ar.py line 125. -/
inductive Bucket : Type where
  | current
  | d1to15
  | d16to30
  | d31to45
  | over45
deriving DecidableEq, Repr

/-- Models `pd.cut(days, bins=[-1, 0, 15, 30, 45, inf], labels=...)` of
src/ar.py lines 124-126 on one integer value: bins are right-closed intervals
`(-1,0], (0,15], (15,30], (30,45], (45,inf)`; a value outside every bin (here
any value `≤ -1`) gets no label (`NaN`), modelled as `none`. -/
def pdCut (x : Int) : Option Bucket :=
  if -1 < x ∧ x ≤ 0 then some .current
  else if 0 < x ∧ x ≤ 15 then some .d1to15
  else if 15 < x ∧ x ≤ 30 then some .d16to30
  else if 30 < x ∧ x ≤ 45 then some .d31to45
  else if 45 < x then some .over45
  else none

/-- A float value as produced by a pandas column division: a finite rational or
one of the IEEE special values. -/
inductive FVal : Type where
  | fin (q : Rat)
  | inf
  | neginf
  | nan
deriving DecidableEq, Repr

/-- IEEE semantics of the float division `a / b` performed by pandas
(src/ar.py line 130): finite for a nonzero divisor, signed infinity for
`nonzero / 0`, and NaN for `0 / 0`. -/
def fdiv (a b : Rat) : FVal :=
  if b ≠ 0 then .fin (a / b)
  else if 0 < a then .inf
  else if a < 0 then .neginf
  else .nan

/-- An input document row (invoice or bill) as `compute_aging` receives it:
counterparty name, due-date cell, outstanding balance and exchange rate. -/
structure Doc : Type where
  counterparty : String
  due_date : DateVal
  balance : Rat
  exchange_rate : Rat
deriving DecidableEq, Repr

/-- An output row of `compute_aging`: the surviving document together with the
added `days_overdue`, `Bucket` and `fcy_balance` columns. -/
structure AgedDoc : Type where
  counterparty : String
  due_date : DateVal
  balance : Rat
  exchange_rate : Rat
  days_overdue : Int
  bucket : Option Bucket
  fcy_balance : FVal
deriving DecidableEq, Repr

/-- Models `compute_aging` of src/ar.py lines 113-134.  The first component of
the result is the caller's DataFrame as the function leaves it: line 115
assigns the parsed `due_date` column back into the frame that was passed in,
mutating it in place, before line 118 rebinds `df` to a filtered copy.  The
second component is the returned frame: documents due on or before `as_of`
(a `NaT` due date never passes the filter), with `days_overdue`, the `pd.cut`
bucket, and `fcy_balance` (the balance divided by the exchange rate when the
frame has an `exchange_rate` column — with IEEE division semantics and no zero
guard — and the balance itself otherwise).  A filtered-out row's dead
`days_overdue` branch is 0. -/
def compute_aging (docs : List Doc) (hasRateCol : Bool) (asOf : Int) :
    List Doc × List AgedDoc :=
  let parsedDocs := docs.map fun d => { d with due_date := toDatetime d.due_date }
  let kept := parsedDocs.filter fun d => dateLe d.due_date asOf
  let out := kept.map fun d =>
    let days : Int :=
      match d.due_date with
      | .parsed x => asOf - x
      | _ => 0
    { counterparty := d.counterparty
      due_date := d.due_date
      balance := d.balance
      exchange_rate := d.exchange_rate
      days_overdue := days
      bucket := pdCut days
      fcy_balance :=
        if hasRateCol then fdiv d.balance d.exchange_rate
        else .fin d.balance }
  (parsedDocs, out)

/-- The fixed bucket column order enforced by
`reindex(columns=buckets)` in src/ar.py lines 167-169. -/
def bucketList : List Bucket :=
  [.current, .d1to15, .d16to30, .d31to45, .over45]

/-- One cell of the pivot table built by `pivot_table(index="customer_name",
columns="Bucket", values="balance", aggfunc="sum", fill_value=0)` of src/ar.py
lines 151-157: the sum of the balances of the rows with this counterparty and
this bucket (0 when the group is empty, matching `fill_value=0` and the
reindex fill). -/
def sumBal (rows : List AgedDoc) (cp : String) (b : Bucket) : Rat :=
  (rows.map fun a =>
    if a.counterparty = cp ∧ a.bucket = some b then a.balance else 0).sum

/-- The row-wise sum across the five bucket columns computed by
`ar_pivot_bal.sum(axis=1)` in src/ar.py line 172, before rounding. -/
def rowSumExact (rows : List AgedDoc) (cp : String) : Rat :=
  (bucketList.map fun b => sumBal rows cp b).sum

/-- Round-half-to-even to the nearest integer, the rounding used by
`numpy`/pandas `.round`. -/
def roundHalfEven (q : Rat) : Int :=
  let f := ⌊q⌋
  let r := q - f
  if r < 1 / 2 then f
  else if 1 / 2 < r then f + 1
  else if f % 2 = 0 then f
  else f + 1

/-- Models pandas `.round(2)` on one value (src/ar.py line 172). -/
def round2 (q : Rat) : Rat :=
  (roundHalfEven (q * 100) : Rat) / 100

/-- The `Total` column appended per counterparty by
`ar_pivot_bal["Total"] = ar_pivot_bal.sum(axis=1).round(2)` in src/ar.py
line 172. -/
def rowTotal (rows : List AgedDoc) (cp : String) : Rat :=
  round2 (rowSumExact rows cp)

/-- The distinct counterparty names appearing in the aged rows — the index of
the pivot table (each counterparty exactly once). -/
def counterparties (rows : List AgedDoc) : List String :=
  (rows.map fun a => a.counterparty).dedup

/-- Models `assign_aging_bucket(days)` of src/pyth10.py lines 127-136 and
src/initial/pyth5.py lines 125-134 (and the equivalent `assign_bucket` lambda
of src/pyth11.py line 74), keyed on the signed offset
`days = due_date - as_of`. -/
def assign_aging_bucket (days : Int) : String :=
  if days < 0 then "Overdue"
  else if days ≤ 30 then "0–30 days"
  else if days ≤ 60 then "31–60 days"
  else if days ≤ 90 then "61–90 days"
  else ">90 days"

mutual

/-- Every `total` field in this subtree is accepted by the bs5 `float` coercion
(`pyFloatBs5`); this is the condition under which the flatten walk of
src/bs5.py cannot raise. -/
def totalsOk : Node → Bool
  | .mk _ _ t cs => (pyFloatBs5 t).isSome && totalsOkList cs

/-- List version of `totalsOk`. -/
def totalsOkList : List Node → Bool
  | [] => true
  | n :: ns => totalsOk n && totalsOkList ns

end

/-- Proof-internal helper: the sum of the balances of the aged rows belonging
to one counterparty (not a source construct; used to restate pivot sums). -/
def cpSum (rows : List AgedDoc) (cp : String) : Rat :=
  (rows.map fun a => if a.counterparty = cp then a.balance else 0).sum

/-- Proof-internal helper: the finite value carried by an `FVal`, with 0 for
the non-finite values (used only to state sum equalities over columns whose
entries are known to be finite). -/
def fvalNum : FVal → Rat
  | .fin q => q
  | _ => 0

lemma pdCut_isSome_of_nonneg (d : Int) (h : 0 ≤ d) : (pdCut d).isSome := by
  unfold pdCut
  split_ifs <;> simp_all <;> omega

lemma mem_compute_aging (docs : List Doc) (hasRateCol : Bool) (asOf : Int)
    (a : AgedDoc) (ha : a ∈ (compute_aging docs hasRateCol asOf).2) :
    ∃ x, a.due_date = .parsed x ∧ x ≤ asOf ∧ a.days_overdue = asOf - x ∧
      a.bucket = pdCut (asOf - x) ∧
      (hasRateCol = true → a.fcy_balance = fdiv a.balance a.exchange_rate) ∧
      (hasRateCol = false → a.fcy_balance = .fin a.balance) := by
  simp only [compute_aging, List.mem_map, List.mem_filter] at ha
  obtain ⟨d, ⟨hd, hfilt⟩, rfl⟩ := ha
  cases h : d.due_date with
  | parsed x =>
      have hx : x ≤ asOf := by
        rw [h] at hfilt
        simpa [dateLe] using hfilt
      refine ⟨x, ?_⟩
      cases hasRateCol <;> simp [h, hx]
  | raw y => rw [h] at hfilt; simp [dateLe] at hfilt
  | missing => rw [h] at hfilt; simp [dateLe] at hfilt

mutual

lemma flattenRec_isSome : ∀ (n : Node) (d : Nat),
    totalsOk n = true → (flattenRec n d).isSome
  | .mk name tlabel total children, d => by
    intro h
    rw [totalsOk, Bool.and_eq_true] at h
    obtain ⟨h1, h2⟩ := h
    rw [flattenRec]
    obtain ⟨t, ht⟩ := Option.isSome_iff_exists.mp h1
    rw [ht]
    have := flattenRecList_isSome children (d + 1) h2
    obtain ⟨rest, hrest⟩ := Option.isSome_iff_exists.mp this
    rw [hrest]
    cases resolveName name tlabel <;> simp

lemma flattenRecList_isSome : ∀ (ns : List Node) (d : Nat),
    totalsOkList ns = true → (flattenRecList ns d).isSome
  | [], _ => by intro h; rw [flattenRecList]; simp
  | n :: ns, d => by
    intro h
    rw [totalsOkList, Bool.and_eq_true] at h
    obtain ⟨h1, h2⟩ := h
    rw [flattenRecList]
    obtain ⟨a, ha⟩ := Option.isSome_iff_exists.mp (flattenRec_isSome n d h1)
    obtain ⟨b, hb⟩ := Option.isSome_iff_exists.mp (flattenRecList_isSome ns d h2)
    rw [ha, hb]
    simp

end

lemma sumBal_cons (a : AgedDoc) (L : List AgedDoc) (cp : String) (b : Bucket) :
    sumBal (a :: L) cp b =
      (if a.counterparty = cp ∧ a.bucket = some b then a.balance else 0) + sumBal L cp b := by
  simp [sumBal]

lemma cpSum_cons (a : AgedDoc) (L : List AgedDoc) (cp : String) :
    cpSum (a :: L) cp = (if a.counterparty = cp then a.balance else 0) + cpSum L cp := by
  simp [cpSum]

lemma rowSumExact_cons (a : AgedDoc) (L : List AgedDoc) (cp : String) :
    rowSumExact (a :: L) cp =
      (bucketList.map fun b =>
        if a.counterparty = cp ∧ a.bucket = some b then a.balance else 0).sum +
      rowSumExact L cp := by
  simp only [rowSumExact, bucketList, List.map_cons, List.map_nil, List.sum_cons,
    List.sum_nil, sumBal_cons]
  ring

lemma sum_ind_buckets (a : AgedDoc) (cp : String) (b0 : Bucket) (hb : a.bucket = some b0) :
    (bucketList.map fun b =>
      if a.counterparty = cp ∧ a.bucket = some b then a.balance else 0).sum =
      if a.counterparty = cp then a.balance else 0 := by
  cases b0 <;> by_cases h : a.counterparty = cp <;>
    simp [bucketList, hb, h]

lemma rowSumExact_eq_cpSum (L : List AgedDoc) (cp : String)
    (hb : ∀ a ∈ L, a.bucket.isSome) :
    rowSumExact L cp = cpSum L cp := by
  induction L with
  | nil => simp [rowSumExact, sumBal, cpSum, bucketList]
  | cons a L ih =>
    obtain ⟨b0, hb0⟩ := Option.isSome_iff_exists.mp (hb a (List.mem_cons_self a L))
    rw [rowSumExact_cons, sum_ind_buckets a cp b0 hb0, cpSum_cons,
      ih fun x hx => hb x (List.mem_cons_of_mem a hx)]

lemma list_sum_map_add {α : Type} (l : List α) (f g : α → Rat) :
    (l.map fun x => f x + g x).sum = (l.map f).sum + (l.map g).sum := by
  induction l with
  | nil => simp
  | cons a l ih => simp only [List.map_cons, List.sum_cons, ih]; ring

lemma sum_if_zero_of_not_mem (K : List String) (x : String) (c : Rat) (h : x ∉ K) :
    (K.map fun k => if x = k then c else 0).sum = 0 := by
  induction K with
  | nil => simp
  | cons k K ih =>
    have hxk : x ≠ k := fun hh => h (hh ▸ List.mem_cons_self k K)
    have hK : x ∉ K := fun hh => h (List.mem_cons_of_mem k hh)
    simp [hxk, ih hK]

lemma sum_if_eq_of_mem (K : List String) (x : String) (c : Rat)
    (hnd : K.Nodup) (hx : x ∈ K) :
    (K.map fun k => if x = k then c else 0).sum = c := by
  induction K with
  | nil => simp at hx
  | cons k K ih =>
    obtain ⟨hkK, hndK⟩ := List.nodup_cons.mp hnd
    rcases List.mem_cons.mp hx with h | h
    · subst h
      simp [sum_if_zero_of_not_mem K x c hkK]
    · have hxk : x ≠ k := fun hh => hkK (hh ▸ h)
      simp [hxk, ih hndK h]

lemma cpSum_key_sum (K : List String) (L : List AgedDoc)
    (hnd : K.Nodup) (hmem : ∀ a ∈ L, a.counterparty ∈ K) :
    (K.map fun cp => cpSum L cp).sum = (L.map fun a => a.balance).sum := by
  induction L with
  | nil => simp [cpSum]
  | cons a L ih =>
    simp only [cpSum_cons]
    rw [list_sum_map_add]
    rw [sum_if_eq_of_mem K a.counterparty a.balance hnd (hmem a (List.mem_cons_self a L))]
    rw [ih fun x hx => hmem x (List.mem_cons_of_mem a hx)]
    simp

lemma pivot_conservation (L : List AgedDoc) (hb : ∀ a ∈ L, a.bucket.isSome) :
    ((counterparties L).map fun cp => rowSumExact L cp).sum =
      (L.map fun a => a.balance).sum := by
  have hrw : ∀ cp, rowSumExact L cp = cpSum L cp := fun cp => rowSumExact_eq_cpSum L cp hb
  simp only [hrw]
  exact cpSum_key_sum _ _ (List.nodup_dedup _)
    fun a ha => List.mem_dedup.mpr (List.mem_map_of_mem _ ha)

lemma findRemoveOCA_spec (cs1 cs2 : List Node) (oca : Node)
    (h1 : ∀ c ∈ cs1, c.name ≠ some "Other Current Assets")
    (h2 : oca.name = some "Other Current Assets") :
    findRemoveOCA (cs1 ++ oca :: cs2) = (cs1 ++ cs2, some oca) := by
  induction cs1 with
  | nil => simp [findRemoveOCA, h2]
  | cons c cs ih =>
    have hc : c.name ≠ some "Other Current Assets" := h1 c (List.mem_cons_self c cs)
    simp [findRemoveOCA, hc, ih fun x hx => h1 x (List.mem_cons_of_mem c hx)]

lemma removeOCA_spec (pre post : List Node) (tlabel : Option String)
    (tot : Option JVal) (cs1 cs2 : List Node) (oca : Node)
    (hpre : ∀ s ∈ pre, s.name ≠ some "Assets")
    (h1 : ∀ c ∈ cs1, c.name ≠ some "Other Current Assets")
    (h2 : oca.name = some "Other Current Assets") :
    removeOCA (pre ++ Node.mk (some "Assets") tlabel tot (cs1 ++ oca :: cs2) :: post) =
      (pre ++ Node.mk (some "Assets") tlabel tot (cs1 ++ cs2) :: post, some oca) := by
  induction pre with
  | nil =>
    simp [removeOCA, Node.name, findRemoveOCA_spec cs1 cs2 oca h1 h2]
  | cons s pre ih =>
    have hs : s.name ≠ some "Assets" := hpre s (List.mem_cons_self s pre)
    simp [removeOCA, hs, ih fun x hx => hpre x (List.mem_cons_of_mem s hx)]

lemma insertAfterAssets_spec (pre post : List Node) (assets oca : Node)
    (hpre : ∀ s ∈ pre, s.name ≠ some "Assets")
    (ha : assets.name = some "Assets") :
    insertAfterAssets (pre ++ assets :: post) oca = pre ++ assets :: oca :: post := by
  induction pre with
  | nil => simp [insertAfterAssets, ha]
  | cons s pre ih =>
    have hs : s.name ≠ some "Assets" := hpre s (List.mem_cons_self s pre)
    simp [insertAfterAssets, hs, ih fun x hx => hpre x (List.mem_cons_of_mem s hx)]

lemma restructureSheet_spec (pre post : List Node) (tlabel : Option String)
    (tot : Option JVal) (cs1 cs2 : List Node) (oca : Node)
    (hpre : ∀ s ∈ pre, s.name ≠ some "Assets")
    (h1 : ∀ c ∈ cs1, c.name ≠ some "Other Current Assets")
    (h2 : oca.name = some "Other Current Assets") :
    restructureSheet (pre ++ Node.mk (some "Assets") tlabel tot (cs1 ++ oca :: cs2) :: post) =
      pre ++ Node.mk (some "Assets") tlabel tot (cs1 ++ cs2) :: oca :: post := by
  rw [restructureSheet, removeOCA_spec pre post tlabel tot cs1 cs2 oca hpre h1 h2]
  exact insertAfterAssets_spec pre post (Node.mk (some "Assets") tlabel tot (cs1 ++ cs2)) oca hpre rfl

/-- C1: for every report-tree node that resolves a name, the row emitted by the
`recurse` walk of src/bs2.py is classified Grand Total iff the node is visited
at depth 0, Sub Total iff the depth is positive and the node has at least one
child, and Leaf (First Total) iff the depth is positive and the node has no
children; in particular depth is tested before child-emptiness, so a childless
depth-0 node is a Grand Total, not a Leaf. -/
theorem c1_bs2_head_row_classification (name tlabel : Option String) (total : Option JVal)
    (children : List Node) (depth : Nat) (nm : String) (out : List Row4)
    (hn : resolveName name tlabel = some nm)
    (hout : recurse (Node.mk name tlabel total children) depth = some out) :
    ∃ r rest, out = r :: rest ∧ r.account = nm ∧
      (r.grandTotal.isSome ↔ depth = 0) ∧
      (r.subTotal.isSome ↔ depth ≠ 0 ∧ children ≠ []) ∧
      (r.firstTotal.isSome ↔ depth ≠ 0 ∧ children = []) := by
  rw [recurse, hn] at hout
  cases hft : pyFloatBs2 total with
  | none => rw [hft] at hout; simp at hout
  | some t =>
    rw [hft] at hout
    cases hrl : recurseList children (depth + 1) with
    | none => rw [hrl] at hout; simp at hout
    | some rest =>
      rw [hrl] at hout
      simp only [Option.some_inj] at hout
      by_cases hd : depth = 0
      · subst hd
        simp only [if_pos rfl] at hout
        exact ⟨_, rest, hout.symm, rfl, by simp⟩
      · by_cases hc : children.isEmpty
        · rw [if_neg hd] at hout
          simp only [hc, Bool.not_true, if_neg] at hout
          exact ⟨_, rest, hout.symm, rfl, by simp [hd, List.isEmpty_iff.mp hc]⟩
        · rw [if_neg hd] at hout
          simp only [hc, Bool.not_false, if_pos] at hout
          have hc' : children ≠ [] := by
            intro hh; rw [hh] at hc; simp at hc
          exact ⟨_, rest, hout.symm, rfl, by simp [hd, hc']⟩

/-- Witness for C1: a named childless node at depth 0 is emitted as a Grand
Total row (and not as a Leaf row). -/
theorem c1_witness :
    ∃ r rest, ([⟨"A", none, none, some 5⟩] : List Row4) = r :: rest ∧ r.account = "A" ∧
      (r.grandTotal.isSome ↔ (0 : Nat) = 0) ∧
      (r.subTotal.isSome ↔ (0 : Nat) ≠ 0 ∧ ([] : List Node) ≠ []) ∧
      (r.firstTotal.isSome ↔ (0 : Nat) ≠ 0 ∧ ([] : List Node) = []) :=
  c1_bs2_head_row_classification (some "A") none (some (.num 5)) [] 0 "A"
    [⟨"A", none, none, some 5⟩] (by decide) (by decide)

/-- C2: under the days-overdue convention of src/ar.py, every document kept by
the `due_date <= as_of` filter receives a bucket; the `pd.cut` boundaries are
inclusive on the upper edge (0 maps to Current, 1-15, 16-30, 31-45 and
strictly more than 45 to the four overdue buckets), and `pd.cut` is total on
the integers, yielding exactly one bucket for every nonnegative day count and
no bucket (exclusion) for negative ones. -/
theorem c2_aging_bucket_boundaries :
    (∀ (docs : List Doc) (hasRateCol : Bool) (asOf : Int),
      ∀ a ∈ (compute_aging docs hasRateCol asOf).2, a.bucket.isSome) ∧
    (∀ days : Int, days ≤ 0 → 0 ≤ days → pdCut days = some .current) ∧
    (∀ days : Int, 1 ≤ days → days ≤ 15 → pdCut days = some .d1to15) ∧
    (∀ days : Int, 16 ≤ days → days ≤ 30 → pdCut days = some .d16to30) ∧
    (∀ days : Int, 31 ≤ days → days ≤ 45 → pdCut days = some .d31to45) ∧
    (∀ days : Int, 45 < days → pdCut days = some .over45) ∧
    (∀ days : Int, days < 0 → pdCut days = none) := by
  refine ⟨?_, ?_, ?_, ?_, ?_, ?_, ?_⟩
  · intro docs hasRateCol asOf a ha
    obtain ⟨x, _, hx, _, hb, _⟩ := mem_compute_aging docs hasRateCol asOf a ha
    rw [hb]
    exact pdCut_isSome_of_nonneg _ (by omega)
  all_goals intros <;> unfold pdCut <;> split_ifs <;> first | rfl | omega

/-- Witness for C2: the boundary day counts 0, 15, 16, 45 and 46 land in
Current, "1-15 days", "16-30 days", "31-45 days" and ">45 days". -/
theorem c2_witness :
    pdCut 0 = some Bucket.current ∧ pdCut 15 = some Bucket.d1to15 ∧
    pdCut 16 = some Bucket.d16to30 ∧ pdCut 45 = some Bucket.d31to45 ∧
    pdCut 46 = some Bucket.over45 :=
  ⟨c2_aging_bucket_boundaries.2.1 0 (by omega) (by omega),
   c2_aging_bucket_boundaries.2.2.1 15 (by omega) (by omega),
   c2_aging_bucket_boundaries.2.2.2.1 16 (by omega) (by omega),
   c2_aging_bucket_boundaries.2.2.2.2.1 45 (by omega) (by omega),
   c2_aging_bucket_boundaries.2.2.2.2.2.1 46 (by omega)⟩

/-- Counterexample for C3: a top-level unnamed node (depth 0) with a single
named child.  Were the child promoted to the depth of the unnamed node, its
emitted row would carry depth 0; the code emits it with depth 1. -/
theorem c3_counterexample :
    flatten_bs [Node.mk none none none [Node.mk (some "A") none (some (.num 5)) []]] =
      some [⟨"A", 1, 5, false⟩] ∧ (1 : Nat) ≠ 0 := by decide

/-- C3 as amended: a node whose `name` and `total_label` are both absent/empty
emits no row, and both walks still visit its children — but at depth one
greater than the unnamed node's own depth (`depth + 1`), exactly as for a
named node; the children are not promoted to the parent's depth. -/
theorem c3_unnamed_children_one_deeper (name tlabel : Option String) (total : Option JVal)
    (children : List Node) (depth : Nat) (t5 t2 : Rat)
    (hn : resolveName name tlabel = none)
    (h5 : pyFloatBs5 total = some t5)
    (h2 : pyFloatBs2 total = some t2) :
    flattenRec (Node.mk name tlabel total children) depth =
      flattenRecList children (depth + 1) ∧
    recurse (Node.mk name tlabel total children) depth =
      recurseList children (depth + 1) := by
  constructor
  · rw [flattenRec, hn, h5]
    cases h : flattenRecList children (depth + 1) <;> simp
  · rw [recurse, hn, h2]
    cases h : recurseList children (depth + 1) <;> simp

/-- Witness for C3 (amended): a concrete unnamed node with one named child. -/
theorem c3_witness :
    flattenRec (Node.mk none none none [Node.mk (some "A") none (some (.num 5)) []]) 0 =
      flattenRecList [Node.mk (some "A") none (some (.num 5)) []] 1 ∧
    recurse (Node.mk none none none [Node.mk (some "A") none (some (.num 5)) []]) 0 =
      recurseList [Node.mk (some "A") none (some (.num 5)) []] 1 :=
  c3_unnamed_children_one_deeper none none none
    [Node.mk (some "A") none (some (.num 5)) []] 0 0 0
    (by decide) (by decide) (by decide)

/-- Counterexample for C4: a node whose `total` field is the non-numeric string
"abc" makes the flatten walk of src/bs5.py raise (`float("abc")` is a
`ValueError`), so no output sequence is produced at all. -/
theorem c4_counterexample :
    flatten_bs [Node.mk (some "A") none (some (.str "abc")) []] = none := by decide

/-- C4 as amended: the flatten walk never raises on a tree all of whose `total`
fields are accepted by the `float(... or 0)` coercion; absent, null and
empty-string totals are all coerced to 0.0 (and so never raise), but a
non-numeric non-empty string total raises and aborts the walk. -/
theorem c4_flatten_total_coercion (sheet : List Node)
    (h : totalsOkList sheet = true) :
    (flatten_bs sheet).isSome ∧
    pyFloatBs5 none = some 0 ∧
    pyFloatBs5 (some JVal.null) = some 0 ∧
    pyFloatBs5 (some (JVal.str "")) = some 0 :=
  ⟨flattenRecList_isSome sheet 0 h, by decide, by decide, by decide⟩

/-- Witness for C4 (amended): a sheet with absent, null and empty-string
totals flattens successfully. -/
theorem c4_witness :
    (flatten_bs [Node.mk (some "A") none none
      [Node.mk (some "B") none (some JVal.null) [],
       Node.mk (some "C") none (some (JVal.str "")) []]]).isSome ∧
    pyFloatBs5 none = some 0 ∧
    pyFloatBs5 (some JVal.null) = some 0 ∧
    pyFloatBs5 (some (JVal.str "")) = some 0 :=
  c4_flatten_total_coercion
    [Node.mk (some "A") none none
      [Node.mk (some "B") none (some JVal.null) [],
       Node.mk (some "C") none (some (JVal.str "")) []]] (by decide)

/-- C5: a document whose due date is absent, or strictly later than `as_of`,
is excluded from the aging output entirely — removing it from the input leaves
the returned frame unchanged, so it contributes to no bucket and to no
per-counterparty or per-bucket total; moreover every row that does appear has
a parsed due date on or before `as_of`. -/
theorem c5_excluded_documents (pre post : List Doc) (d : Doc) (hasRateCol : Bool) (asOf : Int)
    (h : toDatetime d.due_date = .missing ∨
         ∃ x, toDatetime d.due_date = .parsed x ∧ asOf < x) :
    (compute_aging (pre ++ d :: post) hasRateCol asOf).2 =
      (compute_aging (pre ++ post) hasRateCol asOf).2 ∧
    ∀ a ∈ (compute_aging (pre ++ d :: post) hasRateCol asOf).2,
      ∃ x, a.due_date = DateVal.parsed x ∧ x ≤ asOf := by
  constructor
  · have hfalse : dateLe (toDatetime d.due_date) asOf = false := by
      rcases h with h | ⟨x, hx, hlt⟩
      · rw [h]; rfl
      · rw [hx]; simp [dateLe]; omega
    simp [compute_aging, List.filter_append, hfalse]
  · intro a ha
    obtain ⟨x, hx1, hx2, _⟩ := mem_compute_aging _ hasRateCol asOf a ha
    exact ⟨x, hx1, hx2⟩

/-- Witness for C5: a document with a missing due date contributes nothing —
the output equals the output for the empty document list. -/
theorem c5_witness :
    (compute_aging [⟨"X", DateVal.missing, 100, 1⟩] false 0).2 =
      (compute_aging [] false 0).2 :=
  (c5_excluded_documents [] [] ⟨"X", DateVal.missing, 100, 1⟩ false 0 (Or.inl rfl)).1

/-- Counterexample for C6: a document with balance 100 and exchange rate 0
gets `fcy_balance` = +Infinity from the unguarded column division of
src/ar.py line 130, not its balance 100 as the claim (zero rate treated as
rate 1) requires. -/
theorem c6_counterexample :
    ((compute_aging [⟨"X", DateVal.parsed 0, 100, 0⟩] true 0).2.map
      fun a => a.fcy_balance) = [FVal.inf] ∧
    FVal.inf ≠ FVal.fin 100 := by decide

/-- C6 as amended: when the frame has an `exchange_rate` column, every output
row's `fcy_balance` is the IEEE division `balance / exchange_rate` — including
a zero rate, which yields Infinity or NaN, with no guard; when the column is
absent, `fcy_balance` is the balance itself; for a nonzero rate the division
is the finite quotient. -/
theorem c6_fcy_balance (docs : List Doc) (hasRateCol : Bool) (asOf : Int) :
    ∀ a ∈ (compute_aging docs hasRateCol asOf).2,
      (hasRateCol = true → a.fcy_balance = fdiv a.balance a.exchange_rate) ∧
      (hasRateCol = false → a.fcy_balance = FVal.fin a.balance) ∧
      (hasRateCol = true → a.exchange_rate ≠ 0 →
        a.fcy_balance = FVal.fin (a.balance / a.exchange_rate)) := by
  intro a ha
  obtain ⟨x, _, _, _, _, ht, hf⟩ := mem_compute_aging docs hasRateCol asOf a ha
  refine ⟨ht, hf, fun hr hz => ?_⟩
  rw [ht hr]
  unfold fdiv
  rw [if_pos hz]

/-- Witness for C6 (amended): with no exchange-rate column the output carries
the balance unchanged. -/
theorem c6_witness :
    (⟨"X", DateVal.parsed 0, 100, 1, 0, some Bucket.current,
      FVal.fin 100⟩ : AgedDoc).fcy_balance = FVal.fin (100 : Rat) :=
  (c6_fcy_balance [⟨"X", DateVal.raw 0, 100, 1⟩] false 0
    ⟨"X", DateVal.parsed 0, 100, 1, 0, some Bucket.current, FVal.fin 100⟩
    (by decide)).2.1 rfl

/-- Counterexample for C7: for a single included document with balance 1/3 the
`Total` column is `round(1/3, 2) = 0.33`, which differs from the exact
row-wise bucket sum 1/3 — the `.round(2)` of src/ar.py line 172 makes the
claimed exact equality false. -/
theorem c7_counterexample :
    rowTotal ((compute_aging [⟨"X", DateVal.raw 0, 1/3, 1⟩] false 0).2) "X" ≠
      rowSumExact ((compute_aging [⟨"X", DateVal.raw 0, 1/3, 1⟩] false 0).2) "X" := by
  have hout : (compute_aging [⟨"X", DateVal.raw 0, 1/3, 1⟩] false 0).2 =
      [⟨"X", DateVal.parsed 0, 1/3, 1, 0, some Bucket.current, FVal.fin (1/3)⟩] := by
    simp [compute_aging, toDatetime, dateLe, pdCut]
  rw [hout]
  have hsum : rowSumExact
      [⟨"X", DateVal.parsed 0, 1/3, 1, 0, some Bucket.current, FVal.fin (1/3)⟩] "X" = 1/3 := by
    simp [rowSumExact, sumBal, bucketList]
  rw [rowTotal, hsum]
  unfold round2 roundHalfEven
  have hfloor : (⌊(1 : Rat)/3 * 100⌋ : Int) = 33 := by
    rw [Int.floor_eq_iff] <;> norm_num
  rw [hfloor]
  norm_num

/-- C7 as amended: the pivot conserves sums exactly at the cell level — the
bucket-column cells summed over all counterparties equal the sum of the
balances of all included documents, with no double counting or loss — and the
sum of `fcy_balance` equals the sum of `balance / exchange_rate` (of `balance`
itself when the frame has no rate column); but each counterparty's `Total`
column is the row-wise bucket sum rounded to 2 decimals, not the exact sum. -/
theorem c7_aggregate_conservation (docs : List Doc) (hasRateCol : Bool) (asOf : Int) :
    (((counterparties ((compute_aging docs hasRateCol asOf).2)).map fun cp =>
        rowSumExact ((compute_aging docs hasRateCol asOf).2) cp).sum =
      (((compute_aging docs hasRateCol asOf).2).map fun a => a.balance).sum) ∧
    (∀ cp, rowTotal ((compute_aging docs hasRateCol asOf).2) cp =
      round2 (rowSumExact ((compute_aging docs hasRateCol asOf).2) cp)) ∧
    ((∀ a ∈ (compute_aging docs hasRateCol asOf).2, a.exchange_rate ≠ 0) →
      ((((compute_aging docs hasRateCol asOf).2).map fun a => fvalNum a.fcy_balance).sum =
        (((compute_aging docs hasRateCol asOf).2).map fun a =>
          a.balance / (if hasRateCol then a.exchange_rate else 1)).sum)) := by
  refine ⟨?_, fun cp => rfl, ?_⟩
  · apply pivot_conservation
    intro a ha
    obtain ⟨x, _, hx, _, hb, _⟩ := mem_compute_aging docs hasRateCol asOf a ha
    rw [hb]
    exact pdCut_isSome_of_nonneg _ (by omega)
  · intro hz
    have hcong : ∀ a ∈ (compute_aging docs hasRateCol asOf).2,
        fvalNum a.fcy_balance = a.balance / (if hasRateCol then a.exchange_rate else 1) := by
      intro a ha
      obtain ⟨x, _, _, _, _, ht, hf⟩ := mem_compute_aging docs hasRateCol asOf a ha
      cases hasRateCol with
      | false => simp [hf rfl, fvalNum]
      | true =>
        rw [ht rfl]
        unfold fdiv
        rw [if_pos (hz a ha)]
        simp [fvalNum]
    rw [List.map_congr_left hcong]

/-- Witness for C7 (amended): cell-level conservation at a concrete two-document
input (two counterparties, two different buckets). -/
theorem c7_witness :
    ((counterparties ((compute_aging
        [⟨"X", DateVal.raw 0, 100, 1⟩, ⟨"Y", DateVal.raw (-20), 50, 1⟩] false 0).2)).map
      fun cp => rowSumExact ((compute_aging
        [⟨"X", DateVal.raw 0, 100, 1⟩, ⟨"Y", DateVal.raw (-20), 50, 1⟩] false 0).2) cp).sum =
      (((compute_aging
        [⟨"X", DateVal.raw 0, 100, 1⟩, ⟨"Y", DateVal.raw (-20), 50, 1⟩] false 0).2).map
        fun a => a.balance).sum :=
  (c7_aggregate_conservation
    [⟨"X", DateVal.raw 0, 100, 1⟩, ⟨"Y", DateVal.raw (-20), 50, 1⟩] false 0).1

/-- Counterexample for C8: `compute_aging` modifies the caller's input frame —
line 115 of src/ar.py writes the parsed `due_date` column back into the frame
that was passed in, so after the call the input's raw date string has become a
datetime value and the input no longer equals what was passed. -/
theorem c8_counterexample :
    (compute_aging [⟨"X", DateVal.raw 5, 100, 1⟩] false 10).1 ≠
      [⟨"X", DateVal.raw 5, 100, 1⟩] := by decide

/-- C8 as amended: `compute_aging` is deterministic but not free of side
effects on its input — it leaves the caller's frame with the `due_date` column
overwritten by its parsed (`pd.to_datetime`) values, and all other fields
unchanged; when every due date is already parsed (or missing) the input is
left unchanged. -/
theorem c8_compute_aging_mutation (docs : List Doc) (hasRateCol : Bool) (asOf : Int) :
    ((compute_aging docs hasRateCol asOf).1 =
      docs.map fun d => { d with due_date := toDatetime d.due_date }) ∧
    ((∀ d ∈ docs, toDatetime d.due_date = d.due_date) →
      (compute_aging docs hasRateCol asOf).1 = docs) := by
  constructor
  · rfl
  · intro h
    calc (compute_aging docs hasRateCol asOf).1
        = docs.map (fun d => { d with due_date := toDatetime d.due_date }) := rfl
      _ = docs.map id := List.map_congr_left fun d hd => by
            have hdd := h d hd
            cases d with
            | mk c dd b e => simp_all
      _ = docs := docs.map_id

/-- Witness for C8 (amended): an input whose due date is already parsed is
left unchanged by the call. -/
theorem c8_witness :
    (compute_aging [⟨"X", DateVal.parsed 5, 100, 1⟩] false 10).1 =
      [⟨"X", DateVal.parsed 5, 100, 1⟩] :=
  (c8_compute_aging_mutation [⟨"X", DateVal.parsed 5, 100, 1⟩] false 10).2 (by decide)

/-- C9: `assign_aging_bucket`, keyed on the signed offset
`days = due_date - as_of`, partitions the integers into the five buckets with
the claimed boundaries: negative days are "Overdue", 0 through 30 (so a
document due exactly on the as-of date is "0–30 days", not "Overdue"), 31
through 60, 61 through 90, and strictly more than 90; the function is total,
so future-dated documents are bucketed rather than excluded. -/
theorem c9_assign_aging_bucket_partition (days : Int) :
    (assign_aging_bucket days = "Overdue" ↔ days < 0) ∧
    (assign_aging_bucket days = "0–30 days" ↔ 0 ≤ days ∧ days ≤ 30) ∧
    (assign_aging_bucket days = "31–60 days" ↔ 31 ≤ days ∧ days ≤ 60) ∧
    (assign_aging_bucket days = "61–90 days" ↔ 61 ≤ days ∧ days ≤ 90) ∧
    (assign_aging_bucket days = ">90 days" ↔ 90 < days) := by
  unfold assign_aging_bucket
  split_ifs <;>
    refine ⟨?_, ?_, ?_, ?_, ?_⟩ <;>
    constructor <;>
    intro h <;>
    first
      | rfl
      | omega
      | (exact absurd h (by decide))
      | (exfalso; omega)

/-- Witness for C9: a document due exactly on the as-of date (offset 0) is
"0–30 days". -/
theorem c9_witness : assign_aging_bucket 0 = "0–30 days" :=
  (c9_assign_aging_bucket_partition 0).2.1.mpr (by omega)

/-- C10: in `fetch_balance_sheet_4cols` of src/bs2.py, the child named
"Other Current Assets" is removed from the direct children of the first
"Assets" section and re-inserted as a top-level section immediately after
"Assets"; as a top-level section it is then walked at depth 0 and its row is a
Grand Total, whereas at its original depth 1 position (having children) it
would have been a Sub Total — and every descendant is accordingly walked one
depth level higher than before. -/
theorem c10_oca_restructure (pre post : List Node) (tlabel : Option String)
    (tot : Option JVal) (cs1 cs2 : List Node) (oca : Node) (t : Rat)
    (hpre : ∀ s ∈ pre, s.name ≠ some "Assets")
    (h1 : ∀ c ∈ cs1, c.name ≠ some "Other Current Assets")
    (h2 : oca.name = some "Other Current Assets")
    (ht : pyFloatBs2 oca.total = some t)
    (hch : oca.children ≠ []) :
    restructureSheet (pre ++ Node.mk (some "Assets") tlabel tot (cs1 ++ oca :: cs2) :: post) =
      pre ++ Node.mk (some "Assets") tlabel tot (cs1 ++ cs2) :: oca :: post ∧
    (∀ out, recurse oca 0 = some out →
      ∃ r rest, out = r :: rest ∧ r.account = "Other Current Assets" ∧
        r.grandTotal = some t ∧ r.subTotal = none ∧ r.firstTotal = none) ∧
    (∀ out, recurse oca 1 = some out →
      ∃ r rest, out = r :: rest ∧ r.account = "Other Current Assets" ∧
        r.subTotal = some t ∧ r.grandTotal = none ∧ r.firstTotal = none) := by
  obtain ⟨n, l, tt, cc⟩ := oca
  have hn : n = some "Other Current Assets" := h2
  subst hn
  simp only [Node.total] at ht
  simp only [Node.children] at hch
  have hres : resolveName (some "Other Current Assets") l = some "Other Current Assets" := by
    unfold resolveName truthyStr
    simp
  have hcc : cc.isEmpty = false := by
    cases cc with
    | nil => exact absurd rfl hch
    | cons x xs => rfl
  refine ⟨restructureSheet_spec pre post tlabel tot cs1 cs2 _ hpre h1 h2, ?_, ?_⟩
  · intro out hout
    rw [recurse, ht, hres] at hout
    cases hrl : recurseList cc (0 + 1) with
    | none => rw [hrl] at hout; simp at hout
    | some rest =>
      rw [hrl] at hout
      simp only [if_pos rfl, Option.some_inj] at hout
      exact ⟨_, rest, hout.symm, rfl, rfl, rfl, rfl⟩
  · intro out hout
    rw [recurse, ht, hres] at hout
    cases hrl : recurseList cc (1 + 1) with
    | none => rw [hrl] at hout; simp at hout
    | some rest =>
      rw [hrl] at hout
      simp only [hcc, Bool.not_false, if_pos, Option.some_inj] at hout
      rw [if_neg (by omega : ¬(1 = 0))] at hout
      exact ⟨_, rest, hout.symm, rfl, rfl, rfl, rfl⟩

/-- Witness for C10: a concrete sheet where "Other Current Assets" (with one
child) sits under "Assets" next to a sibling; the restructured sheet has it
as a top-level section immediately after "Assets". -/
theorem c10_witness :
    restructureSheet
      [Node.mk (some "Assets") none (some (.num 10))
        ([Node.mk (some "Cash") none (some (.num 3)) []] ++
          Node.mk (some "Other Current Assets") none (some (.num 7))
            [Node.mk (some "Prepaid") none (some (.num 7)) []] :: [])] =
      [Node.mk (some "Assets") none (some (.num 10))
        ([Node.mk (some "Cash") none (some (.num 3)) []] ++ []),
       Node.mk (some "Other Current Assets") none (some (.num 7))
         [Node.mk (some "Prepaid") none (some (.num 7)) []]] :=
  (c10_oca_restructure [] [] none (some (.num 10))
    [Node.mk (some "Cash") none (some (.num 3)) []] []
    (Node.mk (some "Other Current Assets") none (some (.num 7))
      [Node.mk (some "Prepaid") none (some (.num 7)) []]) 7
    (by decide) (by simp [Node.name]) (by decide) (by decide)
    (by simp [Node.children])).1
